import Mathlib

/-!
Verification development for the module/dependency resolution engine and the
configuration edit subsystem of the analyzed repository.

The embedding follows the Rust sources:
  * `src/processors/dependency.rs` — the two dependency extractors,
  * `src/config/project.rs` — `ProjectConfig`, its edit queue and comparisons,
  * `src/commands/helpers/import.rs` — the host-binding import accessors.

Collaborators that live outside those files (the Python parser and import
normalizer, the filesystem membership test `is_project_import`, the line
index, the ignore-directive scanner, `domain.rs`, and the TOML library) are
modelled either as explicit parameters or, where their behavior matters, by
definitions whose doc comments start with "Modelled from the spec:".
-/

/-! ## Data model: imports, references, dependencies (src/processors/dependency.rs) -/

/-- An import fact reduced to an absolute module path plus byte offsets
(`NormalizedImport` from `src/processors/import.rs`, used by `dependency.rs`).
Offsets are modelled as `Nat`. -/
structure NormalizedImport where
  module_path : String
  import_offset : Nat
  alias_offset : Nat
deriving DecidableEq, Repr

/-- A framework-specific cross-reference (`SourceCodeReference` from
`src/processors/reference.rs`). -/
structure SourceCodeReference where
  module_path : String
  offset : Nat
deriving DecidableEq, Repr

/-- `Dependency` tagged union from `src/processors/dependency.rs`. -/
inductive Dependency where
  | Import (i : NormalizedImport)
  | Reference (r : SourceCodeReference)
deriving DecidableEq, Repr

/-- `Dependency::module_path` from `src/processors/dependency.rs`. -/
def Dependency.module_path : Dependency → String
  | Dependency.Import i => i.module_path
  | Dependency.Reference r => r.module_path

/-- `Dependency::offset` from `src/processors/dependency.rs`: the alias offset
for imports, the reference offset for references. -/
def Dependency.offset : Dependency → Nat
  | Dependency.Import i => i.alias_offset
  | Dependency.Reference r => r.offset

/-- Modelled from the spec: `src/processors/ignore_directive.rs` is not part of
the excerpt. Per §3/§4.3 an ignore directive is a line number plus optional
scoping (a specific module path or blanket). -/
structure IgnoreDirective where
  line : Nat
  scope : Option String
deriving DecidableEq, Repr

/-- Modelled from the spec: `remove_matching_directives(line_number)` of §4.3
deletes the directives anchored at that line. -/
def removeMatchingDirectives (ds : List IgnoreDirective) (line : Nat) : List IgnoreDirective :=
  ds.filter (fun d => d.line != line)

/-- The part of `FileModule` (`src/processors/file_module.rs`, seen through its
uses in `dependency.rs`) that the extractors produce: the mutable ignore
directive set and the accumulated dependency list. The file binding and raw
contents are abstracted away. -/
structure FileModule where
  ignore_directives : List IgnoreDirective
  dependencies : List Dependency
deriving DecidableEq, Repr

/-- The shared `filter_map` loop of both extractors in
`src/processors/dependency.rs`: imports satisfying `keep` become
`Dependency::Import`s in order; for every other import the directives matching
`lineOf import_offset` are removed. Returns the final directive set and the
kept dependencies. -/
def filterImports (keep : String → Bool) (lineOf : Nat → Nat) :
    List NormalizedImport → List IgnoreDirective → List IgnoreDirective × List Dependency
  | [], ds => (ds, [])
  | i :: rest, ds =>
    if keep i.module_path then
      ((filterImports keep lineOf rest ds).1,
        Dependency.Import i :: (filterImports keep lineOf rest ds).2)
    else
      filterImports keep lineOf rest (removeMatchingDirectives ds (lineOf i.import_offset))

/-- `InternalDependencyExtractor::process` from `src/processors/dependency.rs`
(lines 102-152), after the collaborators have run: `isProject` is
`filesystem::is_project_import` over the fixed source roots, `lineOf` the line
index, `imports` the result of `get_normalized_imports_from_ast`, `ds` the
file's ignore directives, `isUnchecked`/`isRoot`/`rootIgnore` the owning
module's flags and the `RootModuleTreatment::Ignore` switch, and `djangoRefs`
the `get_foreign_key_references` output when Django metadata is configured. -/
def internalExtractorProcess (isProject : String → Bool) (lineOf : Nat → Nat)
    (isUnchecked isRoot rootIgnore : Bool)
    (ds : List IgnoreDirective) (imports : List NormalizedImport)
    (djangoRefs : Option (List SourceCodeReference)) : FileModule :=
  if isUnchecked then { ignore_directives := ds, dependencies := [] }
  else if isRoot && rootIgnore then { ignore_directives := ds, dependencies := [] }
  else
    { ignore_directives := (filterImports (fun p => isProject p) lineOf imports ds).1,
      dependencies :=
        (filterImports (fun p => isProject p) lineOf imports ds).2 ++
          (match djangoRefs with
            | some refs => refs.map Dependency.Reference
            | none => []) }

/-- `ExternalDependencyExtractor::process` from `src/processors/dependency.rs`
(lines 173-200): keeps exactly the imports that are not project imports;
string-import mode is forced off upstream, which is reflected in the `imports`
argument. -/
def externalExtractorProcess (isProject : String → Bool) (lineOf : Nat → Nat)
    (ds : List IgnoreDirective) (imports : List NormalizedImport) : FileModule :=
  { ignore_directives := (filterImports (fun p => !isProject p) lineOf imports ds).1,
    dependencies := (filterImports (fun p => !isProject p) lineOf imports ds).2 }

/-! ## Configuration data model (src/config/project.rs and its collaborators) -/

/-- `ConfigEdit` from `src/config/edit.rs` (seen through its uses in
`project.rs`): the eight queued edit kinds. Filesystem paths are modelled as
strings. -/
inductive ConfigEdit where
  | CreateModule (path : String)
  | DeleteModule (path : String)
  | MarkModuleAsUtility (path : String)
  | UnmarkModuleAsUtility (path : String)
  | AddDependency (path : String) (dependency : String)
  | RemoveDependency (path : String) (dependency : String)
  | AddSourceRoot (filepath : String)
  | RemoveSourceRoot (filepath : String)
deriving DecidableEq, Repr

/-- `EditError` from `src/config/edit.rs`, as used in `project.rs`. -/
inductive EditError where
  | ModuleAlreadyExists
  | ModuleNotFound
  | NotApplicable
  | ConfigDoesNotExist
  | ParsingFailed
  | DiskWriteFailed
deriving DecidableEq, Repr

instance : DecidableEq (Except EditError Unit) := fun a b =>
  match a, b with
  | Except.ok (), Except.ok () => isTrue rfl
  | Except.ok (), Except.error _ => isFalse (fun h => Except.noConfusion h)
  | Except.error _, Except.ok () => isFalse (fun h => Except.noConfusion h)
  | Except.error e, Except.error e' =>
    if h : e = e' then isTrue (by rw [h]) else
      isFalse (fun hc => h (Except.error.inj hc))

/-- `is_ok` on an edit result (`domain_results.iter().any(|r| r.is_ok())`). -/
def exceptIsOk : Except EditError Unit → Bool
  | Except.ok _ => true
  | Except.error _ => false

/-- `DependencyConfig` from `src/config/modules.rs` (seen through its uses):
an edge target path plus optional metadata, modelled by the `deprecated`
flag. -/
structure DependencyConfig where
  path : String
  deprecated : Bool
deriving DecidableEq, Repr

/-- `ModuleConfig` from `src/config/modules.rs` (seen through its uses in
`project.rs`): the declared path, the optional ordered dependency list, and
the utility flag. Interface/visibility metadata is not needed by the claims. -/
structure ModuleConfig where
  path : String
  depends_on : Option (List DependencyConfig)
  utility : Bool
deriving DecidableEq, Repr

/-- `ModuleConfig::dependencies_iter` (empty when `depends_on` is `None`). -/
def ModuleConfig.dependencies_iter (m : ModuleConfig) : List DependencyConfig :=
  m.depends_on.getD []

/-- Modelled from the spec: `src/config/domain.rs` is not part of the excerpt.
Per §3 a Domain is a named group of modules located in the policy document;
`root` is its dotted location, `modules` its contributed module configs,
`pending_edits` its own edit queue, and `apply_ok` stands for whether
persisting its own document would succeed. -/
structure LocatedDomainConfig where
  root : String
  modules : List ModuleConfig
  pending_edits : List ConfigEdit
  apply_ok : Bool
deriving DecidableEq, Repr

/-- Character-list prefix test (an executable rendering of string
`starts_with`, used for domain path scoping). -/
def charsLeadWith : List Char → List Char → Bool
  | [], _ => true
  | _ :: _, [] => false
  | c :: cs, x :: xs => c == x && charsLeadWith cs xs

/-- Modelled from the spec: a module path is scoped to a domain when it is the
domain's own location or lies beneath it (dotted-path descendant). -/
def LocatedDomainConfig.owns (d : LocatedDomainConfig) (path : String) : Bool :=
  path == d.root || charsLeadWith (d.root ++ ".").data path.data

/-- Modelled from the spec: §4.5 and the §9 "domain delegation by trial" note.
A domain accepts a module edit scoped to it, validating against its own module
set exactly as the top level validates against its own; edits scoped
elsewhere, and project-level source-root edits, are not applicable to it. -/
def LocatedDomainConfig.verdict (d : LocatedDomainConfig) (edit : ConfigEdit) :
    Except EditError Unit :=
  match edit with
  | ConfigEdit.CreateModule path =>
    if d.owns path then
      if d.modules.any (fun m => m.path == path) then Except.error EditError.ModuleAlreadyExists
      else Except.ok ()
    else Except.error EditError.NotApplicable
  | ConfigEdit.DeleteModule path
  | ConfigEdit.MarkModuleAsUtility path
  | ConfigEdit.UnmarkModuleAsUtility path
  | ConfigEdit.AddDependency path _
  | ConfigEdit.RemoveDependency path _ =>
    if d.owns path then
      if d.modules.any (fun m => m.path == path) then Except.ok ()
      else Except.error EditError.ModuleNotFound
    else Except.error EditError.NotApplicable
  | ConfigEdit.AddSourceRoot _ | ConfigEdit.RemoveSourceRoot _ =>
    Except.error EditError.NotApplicable

/-- Modelled from the spec: a domain's `enqueue_edit` queues an accepted edit
in its own pending queue and reports its verdict. -/
def LocatedDomainConfig.enqueue_edit (d : LocatedDomainConfig) (edit : ConfigEdit) :
    LocatedDomainConfig × Except EditError Unit :=
  if exceptIsOk (d.verdict edit) then
    ({ d with pending_edits := d.pending_edits ++ [edit] }, d.verdict edit)
  else (d, d.verdict edit)

/-- Modelled from the spec: a domain's `apply_edits` is a no-op on an empty
queue, and otherwise writes its own document, clearing the queue exactly when
the write succeeds. -/
def LocatedDomainConfig.apply_edits (d : LocatedDomainConfig) :
    LocatedDomainConfig × Except EditError Unit :=
  if d.pending_edits.isEmpty then (d, Except.ok ())
  else if d.apply_ok then ({ d with pending_edits := [] }, Except.ok ())
  else (d, Except.error EditError.DiskWriteFailed)

/-- `ProjectConfig` from `src/config/project.rs`, restricted to the fields the
claims exercise: the top-level module declarations, the configured source
roots, the located domains, the pending edit queue and the optional on-disk
location (`None` means the config is not on disk). -/
structure ProjectConfig where
  modules : List ModuleConfig
  source_roots : List String
  domains : List LocatedDomainConfig
  pending_edits : List ConfigEdit
  location : Option String
deriving DecidableEq, Repr

/-- `ProjectConfig::all_modules` (project.rs lines 174-178): top-level
declarations chained with every domain's contributed declarations,
top-level first. -/
def ProjectConfig.all_modules (cfg : ProjectConfig) : List ModuleConfig :=
  cfg.modules ++ cfg.domains.flatMap (fun d => d.modules)

/-- `ProjectConfig::dependencies_for_module` (project.rs lines 132-136): the
`depends_on` of the first config in `all_modules` order whose path matches. -/
def ProjectConfig.dependencies_for_module (cfg : ProjectConfig) (module : String) :
    Option (List DependencyConfig) :=
  ((cfg.all_modules).find? (fun mc => mc.path == module)).bind (fun mc => mc.depends_on)

/-- The `domains.iter_mut().map(|domain| domain.enqueue_edit(edit))` pass that
opens `ProjectConfig::enqueue_edit` (project.rs lines 190-194): offers the
edit to every domain in order, collecting the per-domain results. -/
def enqueueDomains : List LocatedDomainConfig → ConfigEdit →
    List LocatedDomainConfig × List (Except EditError Unit)
  | [], _ => ([], [])
  | d :: rest, edit =>
    ((d.enqueue_edit edit).1 :: (enqueueDomains rest edit).1,
      (d.enqueue_edit edit).2 :: (enqueueDomains rest edit).2)

/-- The `match edit` block of `ProjectConfig::enqueue_edit` (project.rs lines
196-229): decides whether the edit is pushed onto the top-level pending queue
and what the pre-override result is, given whether any domain accepted. -/
def enqueueDecision (modules : List ModuleConfig) (anyOk : Bool) (edit : ConfigEdit) :
    Bool × Except EditError Unit :=
  match edit with
  | ConfigEdit.CreateModule path =>
    if !anyOk then
      if modules.any (fun m => m.path == path) then
        (false, Except.error EditError.ModuleAlreadyExists)
      else (true, Except.ok ())
    else (false, Except.error EditError.NotApplicable)
  | ConfigEdit.DeleteModule path
  | ConfigEdit.MarkModuleAsUtility path
  | ConfigEdit.UnmarkModuleAsUtility path
  | ConfigEdit.AddDependency path _
  | ConfigEdit.RemoveDependency path _ =>
    if modules.any (fun m => m.path == path) then (true, Except.ok ())
    else (false, Except.error EditError.ModuleNotFound)
  | ConfigEdit.AddSourceRoot _ | ConfigEdit.RemoveSourceRoot _ =>
    (true, Except.ok ())

/-- `ProjectConfig::enqueue_edit` (project.rs lines 188-242): the edit is
first offered to every domain; the top-level match then validates and
possibly pushes onto `pending_edits`; finally a top-level error is overridden
to success when any domain enqueued the edit. -/
def ProjectConfig.enqueue_edit (cfg : ProjectConfig) (edit : ConfigEdit) :
    ProjectConfig × Except EditError Unit :=
  let domainPass := enqueueDomains cfg.domains edit
  let anyOk := domainPass.2.any exceptIsOk
  let decision := enqueueDecision cfg.modules anyOk edit
  let final :=
    match decision.2 with
    | Except.ok _ => Except.ok ()
    | Except.error e => if anyOk then Except.ok () else Except.error e
  ({ cfg with
      domains := domainPass.1,
      pending_edits :=
        if decision.1 then cfg.pending_edits ++ [edit] else cfg.pending_edits },
    final)

/-! ## The on-disk document and apply_edits (src/config/project.rs 244-364) -/

/-- A TOML array entry: a string, or some other value (`as_str()` fails on
it). Comments and formatting, which `toml_edit` preserves verbatim, are
outside the model. -/
inductive TomlValue where
  | str (s : String)
  | other (tag : Nat)
deriving DecidableEq, Repr

/-- `as_str` on a TOML value. -/
def TomlValue.as_str : TomlValue → Option String
  | TomlValue.str s => some s
  | TomlValue.other _ => none

/-- One table of the `[[modules]]` array-of-tables: the string value of its
`path` key when present, its `depends_on` array when present, and whether the
`utility` marker is set. -/
structure TomlModuleTable where
  path : Option String
  depends_on : Option (List TomlValue)
  utility : Bool
deriving DecidableEq, Repr

/-- The structured document, restricted to what `apply_edits` touches:
`None` fields stand for an absent (or non-array) key, which the Rust
`if let` guards leave untouched. -/
structure TomlDoc where
  modules : Option (List TomlModuleTable)
  source_roots : Option (List TomlValue)
deriving DecidableEq, Repr

/-- One iteration of the `for edit in &self.pending_edits` loop of
`ProjectConfig::apply_edits` (project.rs lines 263-358), mutating the
document structurally. -/
def applyEdit (doc : TomlDoc) (edit : ConfigEdit) : TomlDoc :=
  match edit with
  | ConfigEdit.CreateModule path =>
    { doc with modules := some ((doc.modules.getD []) ++
        [{ path := some path, depends_on := some [], utility := false }]) }
  | ConfigEdit.DeleteModule path =>
    match doc.modules with
    | some tables =>
      { doc with modules := some (tables.filter (fun t =>
          match t.path with
          | some p => p != path
          | none => true)) }
    | none => doc
  | ConfigEdit.MarkModuleAsUtility path =>
    match doc.modules with
    | some tables =>
      { doc with modules := some (tables.map (fun t =>
          if t.path == some path then { t with utility := true } else t)) }
    | none => doc
  | ConfigEdit.UnmarkModuleAsUtility path =>
    match doc.modules with
    | some tables =>
      { doc with modules := some (tables.map (fun t =>
          if t.path == some path then { t with utility := false } else t)) }
    | none => doc
  | ConfigEdit.AddDependency path dependency =>
    match doc.modules with
    | some tables =>
      { doc with modules := some (tables.map (fun t =>
          if t.path == some path then
            { t with depends_on := some ((t.depends_on.getD []) ++ [TomlValue.str dependency]) }
          else t)) }
    | none => doc
  | ConfigEdit.RemoveDependency path dependency =>
    match doc.modules with
    | some tables =>
      { doc with modules := some (tables.map (fun t =>
          if t.path == some path then
            { t with depends_on :=
                match t.depends_on with
                | some arr => some (arr.filter (fun v =>
                    match v.as_str with
                    | some s => s != dependency
                    | none => true))
                | none => none }
          else t)) }
    | none => doc
  | ConfigEdit.AddSourceRoot filepath =>
    match doc.source_roots with
    | some arr =>
      if arr.any (fun v => v.as_str == some filepath) then doc
      else { doc with source_roots := some (arr ++ [TomlValue.str filepath]) }
    | none => doc
  | ConfigEdit.RemoveSourceRoot filepath =>
    match doc.source_roots with
    | some arr =>
      { doc with source_roots := some (arr.filter (fun v =>
          match v.as_str with
          | some s => s != filepath
          | none => true)) }
    | none => doc

/-- The whole edit loop: every queued edit applied in order. -/
def applyEditsDoc (doc : TomlDoc) (edits : List ConfigEdit) : TomlDoc :=
  edits.foldl applyEdit doc

/-- The project's on-disk config file as `apply_edits` observes it: missing or
unreadable, readable but unparsable, or parsed into a document. -/
inductive DiskFile where
  | missing
  | unparsable
  | parsed (doc : TomlDoc)
deriving DecidableEq, Repr

/-- The filesystem state `apply_edits` interacts with: the project config file
and whether `std::fs::write` would succeed. -/
structure World where
  file : DiskFile
  write_ok : Bool
deriving DecidableEq, Repr

/-- The `for domain in &mut self.domains { domain.apply_edits()?; }` loop
opening `ProjectConfig::apply_edits` (project.rs lines 245-247): applies each
domain in order, aborting on the first error and leaving later domains
untouched. -/
def applyDomains : List LocatedDomainConfig → List LocatedDomainConfig × Except EditError Unit
  | [] => ([], Except.ok ())
  | d :: rest =>
    match d.apply_edits with
    | (d2, Except.error e) => (d2 :: rest, Except.error e)
    | (d2, Except.ok _) =>
      (d2 :: (applyDomains rest).1, (applyDomains rest).2)

/-- `ProjectConfig::apply_edits` (project.rs lines 244-364): domains first,
then the no-op early return on an empty queue, then load, parse, mutate and
write the document, clearing the queue only after a successful write. -/
def ProjectConfig.apply_edits (cfg : ProjectConfig) (w : World) :
    ProjectConfig × World × Except EditError Unit :=
  match applyDomains cfg.domains with
  | (domains2, Except.error e) => ({ cfg with domains := domains2 }, w, Except.error e)
  | (domains2, Except.ok _) =>
    if cfg.pending_edits.isEmpty then ({ cfg with domains := domains2 }, w, Except.ok ())
    else
      match cfg.location with
      | none => ({ cfg with domains := domains2 }, w, Except.error EditError.ConfigDoesNotExist)
      | some _ =>
        match w.file with
        | DiskFile.missing =>
          ({ cfg with domains := domains2 }, w, Except.error EditError.ConfigDoesNotExist)
        | DiskFile.unparsable =>
          ({ cfg with domains := domains2 }, w, Except.error EditError.ParsingFailed)
        | DiskFile.parsed doc =>
          if w.write_ok then
            ({ cfg with domains := domains2, pending_edits := [] },
              { w with file := DiskFile.parsed (applyEditsDoc doc cfg.pending_edits) },
              Except.ok ())
          else ({ cfg with domains := domains2 }, w, Except.error EditError.DiskWriteFailed)

/-- `UnusedDependencies` from `src/config/project.rs`. -/
structure UnusedDependencies where
  path : String
  dependencies : List DependencyConfig
deriving DecidableEq, Repr

/-- The `for module_config in other_config.all_modules()` loop of
`ProjectConfig::compare_dependencies` (project.rs lines 504-539), rendered as
structural recursion; `Vec::push` onto the accumulator becomes `cons` onto
the recursive tail, preserving order. Hash-set membership and difference are
rendered as list membership, which is all the source uses them for. -/
def compareLoop (cfg : ProjectConfig) (own_module_paths : List String) :
    List ModuleConfig → List UnusedDependencies
  | [] => []
  | mc :: rest =>
    if !own_module_paths.contains mc.path then
      { path := mc.path, dependencies := mc.depends_on.getD [] } ::
        compareLoop cfg own_module_paths rest
    else
      let own_dep_paths :=
        ((cfg.dependencies_for_module mc.path).getD []).map (fun dep => dep.path)
      let current_paths := (mc.dependencies_iter).map (fun dep => dep.path)
      let extra_paths := current_paths.filter (fun p => !own_dep_paths.contains p)
      let extra := (mc.dependencies_iter).filter (fun dep => extra_paths.contains dep.path)
      if !extra_paths.isEmpty then
        { path := mc.path, dependencies := extra } :: compareLoop cfg own_module_paths rest
      else compareLoop cfg own_module_paths rest

/-- `ProjectConfig::compare_dependencies` (project.rs lines 499-542). -/
def ProjectConfig.compare_dependencies (cfg other : ProjectConfig) : List UnusedDependencies :=
  compareLoop cfg ((cfg.all_modules).map (fun m => m.path)) (other.all_modules)

/-! ## Host-binding import accessors (src/commands/helpers/import.rs) -/

/-- `LocatedImport` from `src/processors/import.rs` as used by the helpers: a
normalized import plus the two derived 1-based line numbers. -/
structure LocatedImport where
  import_fact : NormalizedImport
  import_line_number : Nat
  alias_line_number : Nat
deriving DecidableEq, Repr

/-- `LocatedImport::new(import_line_number, alias_line_number, import)`. -/
def LocatedImport.new (import_line_number alias_line_number : Nat)
    (i : NormalizedImport) : LocatedImport :=
  { import_fact := i, import_line_number := import_line_number,
    alias_line_number := alias_line_number }

/-- `LocatedImport::module_path`. -/
def LocatedImport.module_path (l : LocatedImport) : String :=
  l.import_fact.module_path

/-- `PythonImport` from `src/commands/helpers/import.rs`: the pair the host
layer receives. -/
structure PythonImport where
  module_path : String
  line_number : Nat
deriving DecidableEq, Repr

/-- `IntoPy for LocatedImport` (import.rs lines 16-24): the host sees the
module path and the alias's line number. -/
def LocatedImport.intoPy (l : LocatedImport) : PythonImport :=
  { module_path := l.import_fact.module_path, line_number := l.alias_line_number }

/-- Modelled from the spec: `is_ignored` of §4.3 — some directive's line
matches the dependency's resolved line and, if the directive is scoped, its
module path equals the dependency's module path. For a located import the
resolved line is its alias line. -/
def isIgnoredImport (ds : List IgnoreDirective) (l : LocatedImport) : Bool :=
  ds.any (fun d =>
    d.line == l.alias_line_number &&
      (match d.scope with
        | none => true
        | some m => m == l.module_path))

/-- `get_located_project_imports` (import.rs lines 26-56), after the
collaborators have run: `lineIndex` is the line index built from the file
contents, `normalized` the `get_normalized_imports` output, `ds` the
`get_ignore_directives` output. -/
def get_located_project_imports (isProject : String → Bool) (lineIndex : Nat → Nat)
    (normalized : List NormalizedImport) (ds : List IgnoreDirective) : List LocatedImport :=
  (normalized.map (fun i =>
      LocatedImport.new (lineIndex i.import_offset) (lineIndex i.alias_offset) i)).filter
    (fun l => !isIgnoredImport ds l && isProject l.module_path)

/-- `get_located_external_imports` (import.rs lines 58-87): same pipeline with
the project-membership test negated and string imports forced off upstream. -/
def get_located_external_imports (isProject : String → Bool) (lineIndex : Nat → Nat)
    (normalized : List NormalizedImport) (ds : List IgnoreDirective) : List LocatedImport :=
  (normalized.map (fun i =>
      LocatedImport.new (lineIndex i.import_offset) (lineIndex i.alias_offset) i)).filter
    (fun l => !isIgnoredImport ds l && !isProject l.module_path)

/-! ## Lemmas about the extractor loop -/

theorem filterImports_snd (keep : String → Bool) (lineOf : Nat → Nat)
    (l : List NormalizedImport) (ds : List IgnoreDirective) :
    (filterImports keep lineOf l ds).2 =
      (l.filter (fun i => keep i.module_path)).map Dependency.Import := by
  induction l generalizing ds with
  | nil => rfl
  | cons i rest ih =>
    by_cases h : keep i.module_path = true
    · simp [filterImports, h, ih]
    · simp [filterImports, h, ih]

theorem mem_filterImports_snd (keep : String → Bool) (lineOf : Nat → Nat)
    (l : List NormalizedImport) (ds : List IgnoreDirective) (i : NormalizedImport) :
    Dependency.Import i ∈ (filterImports keep lineOf l ds).2 ↔
      i ∈ l ∧ keep i.module_path = true := by
  rw [filterImports_snd]
  constructor
  · intro h
    rcases List.mem_map.mp h with ⟨j, hj, hij⟩
    cases hij
    exact List.mem_filter.mp hj
  · intro ⟨hl, hk⟩
    exact List.mem_map.mpr ⟨i, List.mem_filter.mpr ⟨hl, hk⟩, rfl⟩

theorem internal_deps_eq (isProject : String → Bool) (lineOf : Nat → Nat)
    (isRoot rootIgnore : Bool) (ds : List IgnoreDirective)
    (imports : List NormalizedImport) (djangoRefs : Option (List SourceCodeReference))
    (hr : (isRoot && rootIgnore) = false) :
    (internalExtractorProcess isProject lineOf false isRoot rootIgnore ds imports djangoRefs).dependencies
      = ((imports.filter (fun i => isProject i.module_path)).map Dependency.Import) ++
          (match djangoRefs with
            | some refs => refs.map Dependency.Reference
            | none => []) := by
  unfold internalExtractorProcess
  simp [hr, filterImports_snd]

theorem external_deps_eq (isProject : String → Bool) (lineOf : Nat → Nat)
    (ds : List IgnoreDirective) (imports : List NormalizedImport) :
    (externalExtractorProcess isProject lineOf ds imports).dependencies
      = (imports.filter (fun i => !isProject i.module_path)).map Dependency.Import := by
  unfold externalExtractorProcess
  simp [filterImports_snd]

/-- C1 (amended): for a file whose owning module is neither unchecked nor
skipped by root-module-ignore, every normalized import appears in exactly one
of the internal and the external extractor's dependency outputs (given the
fixed classification `isProject` induced by the source roots). -/
theorem c1_partition_checked (isProject : String → Bool) (lineOf : Nat → Nat)
    (ds : List IgnoreDirective) (imports : List NormalizedImport)
    (djangoRefs : Option (List SourceCodeReference)) (isRoot rootIgnore : Bool)
    (hr : (isRoot && rootIgnore) = false) (i : NormalizedImport) (hi : i ∈ imports) :
    (Dependency.Import i ∈
        (internalExtractorProcess isProject lineOf false isRoot rootIgnore ds imports djangoRefs).dependencies)
      ↔ ¬ (Dependency.Import i ∈
        (externalExtractorProcess isProject lineOf ds imports).dependencies) := by
  rw [internal_deps_eq isProject lineOf isRoot rootIgnore ds imports djangoRefs hr,
    external_deps_eq]
  have hB : Dependency.Import i ∉
      (match djangoRefs with
        | some refs => refs.map Dependency.Reference
        | none => ([] : List Dependency)) := by
    cases djangoRefs with
    | none => simp
    | some refs => simp
  rw [List.mem_append, or_iff_left hB]
  have h1 : Dependency.Import i ∈ (imports.filter (fun j => isProject j.module_path)).map Dependency.Import
      ↔ isProject i.module_path = true := by
    constructor
    · intro h
      rcases List.mem_map.mp h with ⟨j, hj, hji⟩
      cases hji
      exact (List.mem_filter.mp hj).2
    · intro h
      exact List.mem_map.mpr ⟨i, List.mem_filter.mpr ⟨hi, h⟩, rfl⟩
  have h2 : Dependency.Import i ∈ (imports.filter (fun j => !isProject j.module_path)).map Dependency.Import
      ↔ (!isProject i.module_path) = true := by
    constructor
    · intro h
      rcases List.mem_map.mp h with ⟨j, hj, hji⟩
      cases hji
      exact (List.mem_filter.mp hj).2
    · intro h
      exact List.mem_map.mpr ⟨i, List.mem_filter.mpr ⟨hi, h⟩, rfl⟩
  rw [h1, h2]
  cases hip : isProject i.module_path <;> simp [hip]

-- Witness for `c1_partition_checked` at a concrete project import.
theorem c1_partition_checked_witness :
    (Dependency.Import ⟨"proj", 0, 0⟩ ∈
        (internalExtractorProcess (fun p => p == "proj") (fun n => n + 1) false false false []
          [⟨"proj", 0, 0⟩] none).dependencies)
      ↔ ¬ (Dependency.Import ⟨"proj", 0, 0⟩ ∈
        (externalExtractorProcess (fun p => p == "proj") (fun n => n + 1) []
          [⟨"proj", 0, 0⟩]).dependencies) :=
  c1_partition_checked (fun p => p == "proj") (fun n => n + 1) [] [⟨"proj", 0, 0⟩] none
    false false (by decide) ⟨"proj", 0, 0⟩ (by decide)

/-- C1 counterexample: a file whose owning module is unchecked is successfully
processed by both extractors, yet a project import from it appears in neither
dependency output — the internal extractor short-circuits to an empty list and
the external extractor filters the project import out. -/
theorem c1_counterexample :
    ¬ (((Dependency.Import ⟨"proj", 0, 0⟩ ∈
          (internalExtractorProcess (fun p => p == "proj") (fun n => n + 1) true false false []
            [⟨"proj", 0, 0⟩] none).dependencies) ∧
        ¬ (Dependency.Import ⟨"proj", 0, 0⟩ ∈
          (externalExtractorProcess (fun p => p == "proj") (fun n => n + 1) []
            [⟨"proj", 0, 0⟩]).dependencies)) ∨
       (¬ (Dependency.Import ⟨"proj", 0, 0⟩ ∈
          (internalExtractorProcess (fun p => p == "proj") (fun n => n + 1) true false false []
            [⟨"proj", 0, 0⟩] none).dependencies) ∧
        (Dependency.Import ⟨"proj", 0, 0⟩ ∈
          (externalExtractorProcess (fun p => p == "proj") (fun n => n + 1) []
            [⟨"proj", 0, 0⟩]).dependencies))) := by
  decide

/-- C3 (amended): the external extractor's dependency list, and the internal
extractor's dependency list when no framework (Django) plugin is configured,
are ordered by ascending source offset whenever the normalized imports arrive
in ascending alias-offset order; with a framework plugin the references are
appended after all imports and the combined list need not be sorted. -/
theorem c3_source_order (isProject : String → Bool) (lineOf : Nat → Nat)
    (ds : List IgnoreDirective) (imports : List NormalizedImport)
    (isUnchecked isRoot rootIgnore : Bool)
    (h : imports.Pairwise (fun a b => a.alias_offset ≤ b.alias_offset)) :
    ((externalExtractorProcess isProject lineOf ds imports).dependencies).Pairwise
        (fun a b => a.offset ≤ b.offset)
      ∧ ((internalExtractorProcess isProject lineOf isUnchecked isRoot rootIgnore ds imports
            none).dependencies).Pairwise
        (fun a b => a.offset ≤ b.offset) := by
  constructor
  · rw [external_deps_eq]
    exact (h.sublist (List.filter_sublist _)).map _ (fun a b hab => hab)
  · unfold internalExtractorProcess
    cases isUnchecked with
    | true => simp
    | false =>
      cases hb : (isRoot && rootIgnore) with
      | true => simp [hb]
      | false =>
        simp [hb, filterImports_snd]
        exact (h.sublist (List.filter_sublist _)).map _ (fun a b hab => hab)

-- Witness for `c3_source_order` on a concrete two-import file.
theorem c3_source_order_witness :
    ((externalExtractorProcess (fun p => p == "proj") (fun n => n + 1) []
        [⟨"other", 0, 0⟩, ⟨"proj", 5, 5⟩]).dependencies).Pairwise
      (fun a b => a.offset ≤ b.offset)
    ∧ ((internalExtractorProcess (fun p => p == "proj") (fun n => n + 1) false false false []
          [⟨"other", 0, 0⟩, ⟨"proj", 5, 5⟩] none).dependencies).Pairwise
      (fun a b => a.offset ≤ b.offset) :=
  c3_source_order (fun p => p == "proj") (fun n => n + 1) []
    [⟨"other", 0, 0⟩, ⟨"proj", 5, 5⟩] false false false (by decide)

/-- C3 counterexample: with the Django plugin configured, a framework
reference at offset 5 is appended after a project import whose alias offset is
100, so the resulting dependency list is not in ascending offset order. -/
theorem c3_counterexample :
    ¬ ((internalExtractorProcess (fun p => p == "proj") (fun n => n + 1) false false false []
          [⟨"proj", 0, 100⟩] (some [⟨"app", 5⟩])).dependencies).Pairwise
        (fun a b => a.offset ≤ b.offset) := by
  decide

/-! ## Lemmas about the edit queue -/

theorem verdict_update (d : LocatedDomainConfig) (q : List ConfigEdit) (e : ConfigEdit) :
    ({ d with pending_edits := q } : LocatedDomainConfig).verdict e = d.verdict e := by
  cases e <;> rfl

theorem enqueue_edit_domain_snd (d : LocatedDomainConfig) (e : ConfigEdit) :
    (d.enqueue_edit e).2 = d.verdict e := by
  unfold LocatedDomainConfig.enqueue_edit
  split <;> rfl

theorem enqueue_edit_domain_fst_verdict (d : LocatedDomainConfig) (e e' : ConfigEdit) :
    ((d.enqueue_edit e).1).verdict e' = d.verdict e' := by
  unfold LocatedDomainConfig.enqueue_edit
  split
  · exact verdict_update d _ e'
  · rfl

theorem enqueueDomains_snd (ds : List LocatedDomainConfig) (e : ConfigEdit) :
    (enqueueDomains ds e).2 = ds.map (fun d => d.verdict e) := by
  induction ds with
  | nil => rfl
  | cons d rest ih => simp [enqueueDomains, enqueue_edit_domain_snd, ih]

theorem enqueueDomains_fst_verdicts (ds : List LocatedDomainConfig) (e e' : ConfigEdit) :
    ((enqueueDomains ds e).1).map (fun d => d.verdict e') = ds.map (fun d => d.verdict e') := by
  induction ds with
  | nil => rfl
  | cons d rest ih => simp [enqueueDomains, enqueue_edit_domain_fst_verdict, ih]

theorem enqueue_edit_fst_modules (cfg : ProjectConfig) (e : ConfigEdit) :
    (cfg.enqueue_edit e).1.modules = cfg.modules := rfl

theorem enqueue_edit_fst_domains (cfg : ProjectConfig) (e : ConfigEdit) :
    (cfg.enqueue_edit e).1.domains = (enqueueDomains cfg.domains e).1 := rfl

theorem enqueue_anyOk_eq (cfg : ProjectConfig) (e e' : ConfigEdit) :
    ((enqueueDomains ((cfg.enqueue_edit e).1.domains) e').2).any exceptIsOk
      = ((enqueueDomains cfg.domains e').2).any exceptIsOk := by
  rw [enqueue_edit_fst_domains, enqueueDomains_snd, enqueueDomains_snd,
    enqueueDomains_fst_verdicts]

theorem enqueue_edit_snd (cfg : ProjectConfig) (e : ConfigEdit) :
    (cfg.enqueue_edit e).2 =
      (match (enqueueDecision cfg.modules
          (((enqueueDomains cfg.domains e).2).any exceptIsOk) e).2 with
        | Except.ok _ => Except.ok ()
        | Except.error err =>
          if ((enqueueDomains cfg.domains e).2).any exceptIsOk then Except.ok ()
          else Except.error err) := rfl

/-- C2 (amended): every edit is first offered to every domain; for
`CreateModule`, domain acceptance prevents the top-level enqueue; for
module-scoped edits other than `CreateModule` the top level enqueues the edit
whenever its own module set declares the path, regardless of domain
acceptance (see the counterexample); and whenever some domain accepted the
edit, `enqueue_edit` returns success even if the top-level validation
rejected it. -/
theorem c2_domain_first_refusal (cfg : ProjectConfig) (edit : ConfigEdit) :
    ((cfg.enqueue_edit edit).1.domains = (enqueueDomains cfg.domains edit).1)
    ∧ (∀ path, edit = ConfigEdit.CreateModule path →
        ((enqueueDomains cfg.domains edit).2).any exceptIsOk = true →
        (cfg.enqueue_edit edit).1.pending_edits = cfg.pending_edits)
    ∧ (∀ path,
        (edit = ConfigEdit.DeleteModule path
          ∨ edit = ConfigEdit.MarkModuleAsUtility path
          ∨ edit = ConfigEdit.UnmarkModuleAsUtility path
          ∨ (∃ dep, edit = ConfigEdit.AddDependency path dep)
          ∨ (∃ dep, edit = ConfigEdit.RemoveDependency path dep)) →
        cfg.modules.any (fun m => m.path == path) = true →
        (cfg.enqueue_edit edit).1.pending_edits = cfg.pending_edits ++ [edit])
    ∧ (((enqueueDomains cfg.domains edit).2).any exceptIsOk = true →
        (cfg.enqueue_edit edit).2 = Except.ok ()) := by
  refine ⟨rfl, ?_, ?_, ?_⟩
  · intro path hpath hany
    subst hpath
    unfold ProjectConfig.enqueue_edit
    simp [enqueueDecision, hany]
  · intro path hcase hmod
    rcases hcase with hpath | hpath | hpath | ⟨dep, hpath⟩ | ⟨dep, hpath⟩ <;>
      subst hpath <;>
      · unfold ProjectConfig.enqueue_edit
        simp [enqueueDecision, hmod]
  · intro hany
    unfold ProjectConfig.enqueue_edit
    simp only [hany]
    cases hdec : (enqueueDecision cfg.modules true edit).2 with
    | ok u => simp [hdec]
    | error err => simp [hdec]

-- Witness for `c2_domain_first_refusal`: a domain located at `d` accepts
-- `CreateModule{"d.a"}`, so the top level does not enqueue and the call
-- succeeds; and a top-level `DeleteModule{"a"}` of a declared module is
-- enqueued at top level.
theorem c2_domain_first_refusal_witness :
    ((⟨[], [], [⟨"d", [], [], true⟩], [], none⟩ : ProjectConfig).enqueue_edit
        (ConfigEdit.CreateModule "d.a")).1.pending_edits = []
    ∧ ((⟨[], [], [⟨"d", [], [], true⟩], [], none⟩ : ProjectConfig).enqueue_edit
        (ConfigEdit.CreateModule "d.a")).2 = Except.ok ()
    ∧ ((⟨[⟨"a", none, false⟩], [], [], [], none⟩ : ProjectConfig).enqueue_edit
        (ConfigEdit.DeleteModule "a")).1.pending_edits = [ConfigEdit.DeleteModule "a"] :=
  ⟨(c2_domain_first_refusal ⟨[], [], [⟨"d", [], [], true⟩], [], none⟩
      (ConfigEdit.CreateModule "d.a")).2.1 "d.a" rfl (by decide),
    (c2_domain_first_refusal ⟨[], [], [⟨"d", [], [], true⟩], [], none⟩
      (ConfigEdit.CreateModule "d.a")).2.2.2 (by decide),
    (c2_domain_first_refusal ⟨[⟨"a", none, false⟩], [], [], [], none⟩
      (ConfigEdit.DeleteModule "a")).2.2.1 "a" (Or.inl rfl) (by decide)⟩

/-- C2 counterexample: for `DeleteModule{"d.a"}`, a domain that declares
`d.a` accepts the edit, yet the top level — which also declares `d.a` —
additionally enqueues it onto its own pending queue. -/
theorem c2_counterexample :
    (((enqueueDomains
        [(⟨"d", [⟨"d.a", none, false⟩], [], true⟩ : LocatedDomainConfig)]
        (ConfigEdit.DeleteModule "d.a")).2).any exceptIsOk = true)
    ∧ ((⟨[⟨"d.a", none, false⟩], [], [⟨"d", [⟨"d.a", none, false⟩], [], true⟩], [],
          none⟩ : ProjectConfig).enqueue_edit
        (ConfigEdit.DeleteModule "d.a")).1.pending_edits
      = [ConfigEdit.DeleteModule "d.a"] := by
  decide

/-- C4: whenever `apply_edits` returns an error, the on-disk document is
untouched and the top-level pending queue is unchanged; and whenever the
pending queue changes at all, the call succeeded, the queue was cleared, and
the document on disk is the parsed document with the whole batch applied. -/
theorem c4_apply_edits_atomic (cfg : ProjectConfig) (w : World) :
    ((cfg.apply_edits w).2.2 ≠ Except.ok () →
      (cfg.apply_edits w).2.1 = w ∧ (cfg.apply_edits w).1.pending_edits = cfg.pending_edits)
    ∧ ((cfg.apply_edits w).1.pending_edits ≠ cfg.pending_edits →
      (cfg.apply_edits w).2.2 = Except.ok () ∧ (cfg.apply_edits w).1.pending_edits = [] ∧
        ∃ doc, w.file = DiskFile.parsed doc ∧ w.write_ok = true ∧
          (cfg.apply_edits w).2.1.file = DiskFile.parsed (applyEditsDoc doc cfg.pending_edits)) := by
  unfold ProjectConfig.apply_edits
  rcases hAD : applyDomains cfg.domains with ⟨ds2, r⟩
  cases r with
  | error e => exact ⟨fun _ => ⟨rfl, rfl⟩, fun hne => absurd rfl hne⟩
  | ok u =>
    cases u
    dsimp only
    by_cases hp : cfg.pending_edits.isEmpty = true
    · rw [if_pos hp]
      exact ⟨fun hne => absurd rfl hne, fun hne => absurd rfl hne⟩
    · rw [if_neg hp]
      cases hl : cfg.location with
      | none => exact ⟨fun _ => ⟨rfl, rfl⟩, fun hne => absurd rfl hne⟩
      | some loc =>
        cases hw : w.file with
        | missing => exact ⟨fun _ => ⟨rfl, rfl⟩, fun hne => absurd rfl hne⟩
        | unparsable => exact ⟨fun _ => ⟨rfl, rfl⟩, fun hne => absurd rfl hne⟩
        | parsed doc =>
          dsimp only
          by_cases hwo : w.write_ok = true
          · rw [if_pos hwo]
            exact ⟨fun hne => absurd rfl hne,
              fun _ => ⟨rfl, rfl, doc, rfl, hwo, rfl⟩⟩
          · rw [if_neg hwo]
            exact ⟨fun _ => ⟨rfl, rfl⟩, fun hne => absurd rfl hne⟩

-- Witness for `c4_apply_edits_atomic`: a config with a pending edit but no
-- on-disk location fails, leaving the world and the queue untouched.
theorem c4_apply_edits_atomic_witness :
    ((⟨[], [], [], [ConfigEdit.AddSourceRoot "src"], none⟩ : ProjectConfig).apply_edits
        ⟨DiskFile.missing, true⟩).2.1 = ⟨DiskFile.missing, true⟩
    ∧ ((⟨[], [], [], [ConfigEdit.AddSourceRoot "src"], none⟩ : ProjectConfig).apply_edits
        ⟨DiskFile.missing, true⟩).1.pending_edits
      = (⟨[], [], [], [ConfigEdit.AddSourceRoot "src"], none⟩ : ProjectConfig).pending_edits :=
  (c4_apply_edits_atomic ⟨[], [], [], [ConfigEdit.AddSourceRoot "src"], none⟩
    ⟨DiskFile.missing, true⟩).1 (by decide)

theorem applyDomains_of_empty (ds : List LocatedDomainConfig)
    (h : ∀ d ∈ ds, d.pending_edits = []) : applyDomains ds = (ds, Except.ok ()) := by
  induction ds with
  | nil => rfl
  | cons d rest ih =>
    have hd : d.pending_edits = [] := h d (List.mem_cons_self d rest)
    have hrest := ih (fun x hx => h x (List.mem_cons_of_mem d hx))
    have happly : d.apply_edits = (d, Except.ok ()) := by
      unfold LocatedDomainConfig.apply_edits
      rw [hd]
      rfl
    unfold applyDomains
    rw [happly, hrest]

/-- C5: with an empty pending queue and no domain edits queued, `apply_edits`
succeeds, performs no disk write, and leaves the configuration untouched —
even when the config has no on-disk location. -/
theorem c5_apply_edits_noop (cfg : ProjectConfig) (w : World)
    (hp : cfg.pending_edits = []) (hd : ∀ d ∈ cfg.domains, d.pending_edits = []) :
    cfg.apply_edits w = (cfg, w, Except.ok ()) := by
  obtain ⟨ms, srs, dsn, pend, loc⟩ := cfg
  replace hp : pend = [] := hp
  subst hp
  replace hd : ∀ d ∈ dsn, d.pending_edits = [] := hd
  unfold ProjectConfig.apply_edits
  rw [applyDomains_of_empty dsn hd]
  rfl

-- Witness for `c5_apply_edits_noop`: a location-less config with one idle
-- domain, over a missing file with failing writes.
theorem c5_apply_edits_noop_witness :
    (⟨[⟨"a", none, false⟩], ["."], [⟨"d", [], [], true⟩], [], none⟩ : ProjectConfig).apply_edits
        ⟨DiskFile.missing, false⟩
      = (⟨[⟨"a", none, false⟩], ["."], [⟨"d", [], [], true⟩], [], none⟩, ⟨DiskFile.missing, false⟩,
          Except.ok ()) :=
  c5_apply_edits_noop ⟨[⟨"a", none, false⟩], ["."], [⟨"d", [], [], true⟩], [], none⟩
    ⟨DiskFile.missing, false⟩ rfl (by decide)

/-- C6 (amended): `enqueue_edit(CreateModule{path})` fails with
`ModuleAlreadyExists` exactly when no domain accepts the edit and the path is
already declared by the top-level config's in-memory module set (a path
declared only by a domain does not cause the failure — see the
counterexample); and enqueuing the same `CreateModule` a second time gives the
same result as the first, since validation reads the module set, which an
enqueued-but-unapplied edit never changes. -/
theorem c6_create_module_validation (cfg : ProjectConfig) (path : String) :
    ((cfg.enqueue_edit (ConfigEdit.CreateModule path)).2
        = Except.error EditError.ModuleAlreadyExists
      ↔ (((enqueueDomains cfg.domains (ConfigEdit.CreateModule path)).2).any exceptIsOk = false
          ∧ cfg.modules.any (fun m => m.path == path) = true))
    ∧ (((cfg.enqueue_edit (ConfigEdit.CreateModule path)).1.enqueue_edit
          (ConfigEdit.CreateModule path)).2
        = (cfg.enqueue_edit (ConfigEdit.CreateModule path)).2) := by
  constructor
  · cases ha : ((enqueueDomains cfg.domains (ConfigEdit.CreateModule path)).2).any exceptIsOk with
    | true => simp [ProjectConfig.enqueue_edit, enqueueDecision, ha]
    | false =>
      cases hm : cfg.modules.any (fun m => m.path == path) with
      | true => simp [ProjectConfig.enqueue_edit, enqueueDecision, ha, hm]
      | false => simp [ProjectConfig.enqueue_edit, enqueueDecision, ha, hm]
  · rw [enqueue_edit_snd, enqueue_edit_snd, enqueue_edit_fst_modules,
      enqueue_anyOk_eq]

-- Witness for `c6_create_module_validation`: with no domains and `a.b`
-- declared at top level, `CreateModule{"a.b"}` fails with
-- `ModuleAlreadyExists`, and a repeated enqueue of a fresh path agrees with
-- its first result.
theorem c6_create_module_validation_witness :
    ((⟨[⟨"a.b", none, false⟩], [], [], [], none⟩ : ProjectConfig).enqueue_edit
        (ConfigEdit.CreateModule "a.b")).2 = Except.error EditError.ModuleAlreadyExists :=
  ((c6_create_module_validation ⟨[⟨"a.b", none, false⟩], [], [], [], none⟩ "a.b").1).mpr
    (by decide)

/-- C6 counterexample: `d.a` is declared by a domain (and by no top-level
module), yet `enqueue_edit(CreateModule{"d.a"})` succeeds instead of failing
with `ModuleAlreadyExists` — the domain rejects the edit with its own error,
and the top level then validates only against its own module set and
enqueues. -/
theorem c6_counterexample :
    ((⟨[], [], [⟨"d", [⟨"d.a", none, false⟩], [], true⟩], [], none⟩ : ProjectConfig).domains.any
        (fun d => d.modules.any (fun m => m.path == "d.a")) = true)
    ∧ ((⟨[], [], [⟨"d", [⟨"d.a", none, false⟩], [], true⟩], [], none⟩ : ProjectConfig).enqueue_edit
        (ConfigEdit.CreateModule "d.a")).2 = Except.ok () := by
  decide

/-! ## Source-root round trip -/

theorem enqueueDomains_addSourceRoot (ds : List LocatedDomainConfig) (p : String) :
    enqueueDomains ds (ConfigEdit.AddSourceRoot p)
      = (ds, ds.map (fun _ => Except.error EditError.NotApplicable)) := by
  induction ds with
  | nil => rfl
  | cons d rest ih =>
    unfold enqueueDomains
    rw [ih]
    rfl

theorem enqueue_addSourceRoot (cfg : ProjectConfig) (p : String) :
    cfg.enqueue_edit (ConfigEdit.AddSourceRoot p)
      = ({ cfg with
            pending_edits := cfg.pending_edits ++ [ConfigEdit.AddSourceRoot p] },
          Except.ok ()) := by
  unfold ProjectConfig.enqueue_edit
  rw [enqueueDomains_addSourceRoot]
  rfl

/-- C7 (amended): after enqueuing `AddSourceRoot{p}` on a clean config and a
successful `apply_edits`, when the document's source-root array exists: if `p`
was already present the array is left exactly as it was (no duplicate is
inserted, but pre-existing duplicates are not reduced), and if `p` was absent
it is appended so that it occurs exactly once; the modules table and all other
array entries are unchanged. -/
theorem c7_add_source_root (cfg : ProjectConfig) (w : World) (doc : TomlDoc)
    (p loc : String) (arr : List TomlValue)
    (hq : cfg.pending_edits = [])
    (hd : ∀ d ∈ cfg.domains, d.pending_edits = [])
    (hl : cfg.location = some loc)
    (hf : w.file = DiskFile.parsed doc)
    (hw : w.write_ok = true)
    (hs : doc.source_roots = some arr) :
    (((cfg.enqueue_edit (ConfigEdit.AddSourceRoot p)).1.apply_edits w).2.2 = Except.ok ())
    ∧ (((cfg.enqueue_edit (ConfigEdit.AddSourceRoot p)).1.apply_edits w).2.1.file
        = DiskFile.parsed
            { doc with source_roots := some (if arr.any (fun v => v.as_str == some p) then arr
                else arr ++ [TomlValue.str p]) })
    ∧ (((cfg.enqueue_edit (ConfigEdit.AddSourceRoot p)).1.apply_edits w).1.pending_edits = [])
    ∧ (arr.any (fun v => v.as_str == some p) = false →
        ((if arr.any (fun v => v.as_str == some p) then arr
            else arr ++ [TomlValue.str p]).countP (fun v => v.as_str == some p)) = 1) := by
  obtain ⟨ms, srs, dsn, pend, cloc⟩ := cfg
  obtain ⟨wf, wok⟩ := w
  obtain ⟨dmods, dsrc⟩ := doc
  replace hq : pend = [] := hq
  subst hq
  replace hl : cloc = some loc := hl
  subst hl
  replace hw : wok = true := hw
  subst hw
  replace hs : dsrc = some arr := hs
  subst hs
  replace hf : wf = DiskFile.parsed ⟨dmods, some arr⟩ := hf
  subst hf
  replace hd : ∀ d ∈ dsn, d.pending_edits = [] := hd
  rw [enqueue_addSourceRoot]
  dsimp only
  unfold ProjectConfig.apply_edits
  rw [applyDomains_of_empty dsn hd]
  dsimp only
  refine ⟨rfl, ?_, rfl, ?_⟩
  · cases hany : arr.any (fun v => v.as_str == some p) with
    | true => simp [applyEditsDoc, applyEdit, hany]
    | false => simp [applyEditsDoc, applyEdit, hany]
  · intro hany
    rw [hany]
    rw [if_neg Bool.false_ne_true, List.countP_append]
    have h0 : arr.countP (fun v => v.as_str == some p) = 0 := by
      rw [List.countP_eq_zero]
      intro a ha
      intro hcontra
      have hthis : arr.any (fun v => v.as_str == some p) = true :=
        List.any_eq_true.mpr ⟨a, ha, hcontra⟩
      rw [hany] at hthis
      cases hthis
    rw [h0]
    simp [List.countP_cons, TomlValue.as_str]

-- Witness for `c7_add_source_root`: appending `src` to a document whose
-- source-root array holds only `a`.
theorem c7_add_source_root_witness :
    ((((⟨[], [], [], [], some "tach.toml"⟩ : ProjectConfig).enqueue_edit
          (ConfigEdit.AddSourceRoot "src")).1.apply_edits
        ⟨DiskFile.parsed ⟨some [], some [TomlValue.str "a"]⟩, true⟩).2.2 = Except.ok ())
    ∧ ((((⟨[], [], [], [], some "tach.toml"⟩ : ProjectConfig).enqueue_edit
          (ConfigEdit.AddSourceRoot "src")).1.apply_edits
        ⟨DiskFile.parsed ⟨some [], some [TomlValue.str "a"]⟩, true⟩).2.1.file
      = DiskFile.parsed ⟨some [], some (if [TomlValue.str "a"].any
            (fun v => v.as_str == some "src") then [TomlValue.str "a"]
          else [TomlValue.str "a"] ++ [TomlValue.str "src"])⟩)
    ∧ ((((⟨[], [], [], [], some "tach.toml"⟩ : ProjectConfig).enqueue_edit
          (ConfigEdit.AddSourceRoot "src")).1.apply_edits
        ⟨DiskFile.parsed ⟨some [], some [TomlValue.str "a"]⟩, true⟩).1.pending_edits = [])
    ∧ ([TomlValue.str "a"].any (fun v => v.as_str == some "src") = false →
        ((if [TomlValue.str "a"].any (fun v => v.as_str == some "src") then [TomlValue.str "a"]
            else [TomlValue.str "a"] ++ [TomlValue.str "src"]).countP
          (fun v => v.as_str == some "src")) = 1) :=
  c7_add_source_root ⟨[], [], [], [], some "tach.toml"⟩
    ⟨DiskFile.parsed ⟨some [], some [TomlValue.str "a"]⟩, true⟩
    ⟨some [], some [TomlValue.str "a"]⟩ "src" "tach.toml" [TomlValue.str "a"]
    rfl (by decide) rfl rfl rfl rfl

/-- C7 counterexample: when `src` is already present twice in the source-root
array, a successful `apply_edits` of `AddSourceRoot{"src"}` leaves both
occurrences, so the document does not contain `src` exactly once. -/
theorem c7_counterexample :
    (((⟨[], [], [], [ConfigEdit.AddSourceRoot "src"], some "tach.toml"⟩ : ProjectConfig).apply_edits
        ⟨DiskFile.parsed ⟨some [], some [TomlValue.str "src", TomlValue.str "src"]⟩, true⟩).2.2
      = Except.ok ())
    ∧ (((⟨[], [], [], [ConfigEdit.AddSourceRoot "src"], some "tach.toml"⟩ : ProjectConfig).apply_edits
        ⟨DiskFile.parsed ⟨some [], some [TomlValue.str "src", TomlValue.str "src"]⟩, true⟩).2.1.file
      = DiskFile.parsed ⟨some [], some [TomlValue.str "src", TomlValue.str "src"]⟩)
    ∧ ([TomlValue.str "src", TomlValue.str "src"].countP
        (fun v => v.as_str == some "src")) ≠ 1 := by
  decide

/-! ## Lemmas about compare_dependencies -/

theorem filter_over_map (deps : List DependencyConfig) (q : String → Bool) :
    (deps.map (fun d => d.path)).filter q
      = (deps.filter (fun d => q d.path)).map (fun d => d.path) := by
  induction deps with
  | nil => rfl
  | cons d rest ih =>
    cases h : q d.path with
    | true => simp [h, ih]
    | false => simp [h, ih]

theorem contains_extra_paths (deps : List DependencyConfig) (q : String → Bool)
    (dep : DependencyConfig) (hmem : dep ∈ deps) :
    ((deps.map (fun d => d.path)).filter q).contains dep.path = q dep.path := by
  rw [filter_over_map]
  cases hq : q dep.path with
  | true =>
    exact List.elem_iff.mpr (List.mem_map.mpr ⟨dep, List.mem_filter.mpr ⟨hmem, hq⟩, rfl⟩)
  | false =>
    cases hc : ((deps.filter (fun d => q d.path)).map (fun d => d.path)).contains dep.path with
    | false => rfl
    | true =>
      exfalso
      have hm := List.elem_iff.mp hc
      rcases List.mem_map.mp hm with ⟨d', hd', hpath⟩
      have hq' := (List.mem_filter.mp hd').2
      rw [hpath, hq] at hq'
      cases hq'

theorem extra_filter_eq (deps : List DependencyConfig) (q : String → Bool) :
    deps.filter (fun dep => ((deps.map (fun d => d.path)).filter q).contains dep.path)
      = deps.filter (fun dep => q dep.path) :=
  List.filter_congr (fun dep hmem => contains_extra_paths deps q dep hmem)

theorem extra_paths_isEmpty_eq (deps : List DependencyConfig) (q : String → Bool) :
    ((deps.map (fun d => d.path)).filter q).isEmpty
      = (deps.filter (fun d => q d.path)).isEmpty := by
  rw [filter_over_map]
  cases deps.filter (fun d => q d.path) <;> rfl

theorem compareLoop_cons_ne (cfg : ProjectConfig) (own : List String) (mc : ModuleConfig)
    (rest : List ModuleConfig) (m : String) (hcm : (mc.path == m) = false) :
    (compareLoop cfg own (mc :: rest)).filter (fun u => u.path == m)
      = (compareLoop cfg own rest).filter (fun u => u.path == m) := by
  simp only [compareLoop]
  split
  · rw [List.filter_cons]
    simp [hcm]
  · split
    · rw [List.filter_cons]
      simp [hcm]
    · rfl

theorem compareLoop_filter_none (cfg : ProjectConfig) (own : List String) (m : String)
    (l : List ModuleConfig) (h : l.filter (fun c => c.path == m) = []) :
    (compareLoop cfg own l).filter (fun u => u.path == m) = [] := by
  induction l with
  | nil => rfl
  | cons mc rest ih =>
    rw [List.filter_cons] at h
    cases hcm : (mc.path == m) with
    | true =>
      rw [if_pos hcm] at h
      cases h
    | false =>
      rw [if_neg (by rw [hcm]; exact Bool.false_ne_true)] at h
      rw [compareLoop_cons_ne cfg own mc rest m hcm]
      exact ih h

theorem compareLoop_filter_eq (cfg : ProjectConfig) (own : List String) (m : String)
    (mc : ModuleConfig) (l : List ModuleConfig)
    (h1 : l.filter (fun c => c.path == m) = [mc])
    (h2 : own.contains m = true) :
    (compareLoop cfg own l).filter (fun u => u.path == m)
      = (if ((mc.dependencies_iter).filter (fun dep =>
            !(((cfg.dependencies_for_module m).getD []).map (fun d => d.path)).contains
              dep.path)).isEmpty
          then []
          else [{ path := m,
                  dependencies := (mc.dependencies_iter).filter (fun dep =>
                    !(((cfg.dependencies_for_module m).getD []).map (fun d => d.path)).contains
                      dep.path) }]) := by
  induction l with
  | nil => cases h1
  | cons mc' rest ih =>
    rw [List.filter_cons] at h1
    cases hcm : (mc'.path == m) with
    | false =>
      rw [if_neg (by rw [hcm]; exact Bool.false_ne_true)] at h1
      rw [compareLoop_cons_ne cfg own mc' rest m hcm]
      exact ih h1
    | true =>
      rw [if_pos hcm] at h1
      injection h1 with h1a h1b
      subst h1a
      have hpathm : mc'.path = m := eq_of_beq hcm
      have hown : own.contains mc'.path = true := by rw [hpathm]; exact h2
      simp only [compareLoop]
      rw [if_neg (by rw [hown]; simp)]
      rw [hpathm]
      rw [extra_filter_eq (mc'.dependencies_iter)
          (fun p => !(((cfg.dependencies_for_module m).getD []).map (fun d => d.path)).contains p),
        extra_paths_isEmpty_eq (mc'.dependencies_iter)
          (fun p => !(((cfg.dependencies_for_module m).getD []).map (fun d => d.path)).contains p)]
      cases hext : ((mc'.dependencies_iter).filter (fun dep =>
          !(((cfg.dependencies_for_module m).getD []).map (fun d => d.path)).contains
            dep.path)).isEmpty with
      | true =>
        rw [if_neg (show ¬((!true) = true) by simp), if_pos (show true = true from rfl)]
        exact compareLoop_filter_none cfg own m rest h1b
      | false =>
        rw [if_pos (show (!false) = true from rfl),
          if_neg (show ¬(false = true) from Bool.false_ne_true)]
        rw [List.filter_cons, if_pos (by simp)]
        rw [compareLoop_filter_none cfg own m rest h1b]

/-- C8: `compare_dependencies` compares only the path-sets of dependency
edges: for a module `m` declared (once) in the other config and also declared
by the receiver, the output's entries for `m` are exactly the other config's
dependencies whose paths are absent from the receiver's dependency path-set
for `m` (one entry when that set is nonempty, none otherwise). -/
theorem c8_compare_dependencies (cfg other : ProjectConfig) (m : String) (mc : ModuleConfig)
    (h1 : (other.all_modules).filter (fun c => c.path == m) = [mc])
    (h2 : ((cfg.all_modules).map (fun c => c.path)).contains m = true) :
    (cfg.compare_dependencies other).filter (fun u => u.path == m)
      = (if ((mc.dependencies_iter).filter (fun dep =>
            !(((cfg.dependencies_for_module m).getD []).map (fun d => d.path)).contains
              dep.path)).isEmpty
          then []
          else [{ path := m,
                  dependencies := (mc.dependencies_iter).filter (fun dep =>
                    !(((cfg.dependencies_for_module m).getD []).map (fun d => d.path)).contains
                      dep.path) }]) := by
  unfold ProjectConfig.compare_dependencies
  exact compareLoop_filter_eq cfg ((cfg.all_modules).map (fun mo => mo.path)) m mc
    (other.all_modules) h1 h2

-- Witness for `c8_compare_dependencies`: baseline `a -> {b}`, modified
-- `a -> {b, c}` reports module `a` with exactly `{c}`.
theorem c8_compare_dependencies_witness :
    ((⟨[⟨"a", some [⟨"b", false⟩], false⟩], [], [], [], none⟩ : ProjectConfig).compare_dependencies
        ⟨[⟨"a", some [⟨"b", false⟩, ⟨"c", false⟩], false⟩], [], [], [], none⟩).filter
      (fun u => u.path == "a")
      = [⟨"a", [⟨"c", false⟩]⟩] :=
  (c8_compare_dependencies
    ⟨[⟨"a", some [⟨"b", false⟩], false⟩], [], [], [], none⟩
    ⟨[⟨"a", some [⟨"b", false⟩, ⟨"c", false⟩], false⟩], [], [], [], none⟩
    "a" ⟨"a", some [⟨"b", false⟩, ⟨"c", false⟩], false⟩ (by decide) (by decide)).trans
    (by decide)

/-! ## Module ordering -/

theorem find?_append_of_some {α : Type _} (p : α → Bool) (l1 l2 : List α) (x : α)
    (h : l1.find? p = some x) : (l1 ++ l2).find? p = some x := by
  induction l1 with
  | nil => cases h
  | cons a rest ih =>
    rw [List.cons_append]
    cases hp : p a with
    | true =>
      rw [List.find?_cons_of_pos _ hp] at h ⊢
      exact h
    | false =>
      rw [List.find?_cons_of_neg _ (by rw [hp]; exact Bool.false_ne_true)] at h ⊢
      exact ih h

/-- C9: `all_modules` yields the top-level module configs in declaration order
followed by every domain's contributed configs, and when a top-level config
declares path `m`, `dependencies_for_module m` returns that first config's
`depends_on` — the top-level declaration wins over any domain's declaration of
the same path. -/
theorem c9_all_modules_order (cfg : ProjectConfig) (m : String) (mc : ModuleConfig)
    (h : cfg.modules.find? (fun c => c.path == m) = some mc) :
    cfg.all_modules = cfg.modules ++ cfg.domains.flatMap (fun d => d.modules)
    ∧ cfg.dependencies_for_module m = mc.depends_on := by
  refine ⟨rfl, ?_⟩
  unfold ProjectConfig.dependencies_for_module ProjectConfig.all_modules
  rw [find?_append_of_some (fun c => c.path == m) cfg.modules
    (cfg.domains.flatMap (fun d => d.modules)) mc h]
  rfl

-- Witness for `c9_all_modules_order`: the top level declares `a -> {b}` while
-- a domain also declares `a -> {c}`; the top-level declaration wins.
theorem c9_all_modules_order_witness :
    ((⟨[⟨"a", some [⟨"b", false⟩], false⟩], [],
        [⟨"dom", [⟨"a", some [⟨"c", false⟩], false⟩], [], true⟩], [],
        none⟩ : ProjectConfig).all_modules
      = (⟨[⟨"a", some [⟨"b", false⟩], false⟩], [],
          [⟨"dom", [⟨"a", some [⟨"c", false⟩], false⟩], [], true⟩], [],
          none⟩ : ProjectConfig).modules ++
        (⟨[⟨"a", some [⟨"b", false⟩], false⟩], [],
          [⟨"dom", [⟨"a", some [⟨"c", false⟩], false⟩], [], true⟩], [],
          none⟩ : ProjectConfig).domains.flatMap (fun d => d.modules))
    ∧ (⟨[⟨"a", some [⟨"b", false⟩], false⟩], [],
        [⟨"dom", [⟨"a", some [⟨"c", false⟩], false⟩], [], true⟩], [],
        none⟩ : ProjectConfig).dependencies_for_module "a" = some [⟨"b", false⟩] :=
  c9_all_modules_order
    ⟨[⟨"a", some [⟨"b", false⟩], false⟩], [],
      [⟨"dom", [⟨"a", some [⟨"c", false⟩], false⟩], [], true⟩], [], none⟩
    "a" ⟨"a", some [⟨"b", false⟩], false⟩ (by decide)

/-! ## Host-binding accessors -/

/-- C10: every import returned by `get_located_project_imports` or
`get_located_external_imports` is not matched by any ignore directive of the
file (imports matched by a directive are excluded), and the line number the
host receives through `IntoPy` is the line of the alias offset, not of
the import statement's offset. -/
theorem c10_located_imports (isProject : String → Bool) (lineIndex : Nat → Nat)
    (normalized : List NormalizedImport) (ds : List IgnoreDirective) (l : LocatedImport) :
    (l ∈ get_located_project_imports isProject lineIndex normalized ds →
      isIgnoredImport ds l = false
        ∧ (l.intoPy).line_number = lineIndex l.import_fact.alias_offset)
    ∧ (l ∈ get_located_external_imports isProject lineIndex normalized ds →
      isIgnoredImport ds l = false
        ∧ (l.intoPy).line_number = lineIndex l.import_fact.alias_offset) := by
  constructor
  · intro h
    unfold get_located_project_imports at h
    have hmem := (List.mem_filter.mp h).1
    have hpred := (List.mem_filter.mp h).2
    simp only [Bool.and_eq_true, Bool.not_eq_true'] at hpred
    refine ⟨hpred.1, ?_⟩
    rcases List.mem_map.mp hmem with ⟨i, _, hnew⟩
    subst hnew
    rfl
  · intro h
    unfold get_located_external_imports at h
    have hmem := (List.mem_filter.mp h).1
    have hpred := (List.mem_filter.mp h).2
    simp only [Bool.and_eq_true, Bool.not_eq_true'] at hpred
    refine ⟨hpred.1, ?_⟩
    rcases List.mem_map.mp hmem with ⟨i, _, hnew⟩
    subst hnew
    rfl

-- Witness for `c10_located_imports` at a concrete file with one project
-- import whose statement and alias sit at different offsets.
theorem c10_located_imports_witness :
    isIgnoredImport [] ⟨⟨"proj", 0, 4⟩, 1, 5⟩ = false
    ∧ ((⟨⟨"proj", 0, 4⟩, 1, 5⟩ : LocatedImport).intoPy).line_number = 5 :=
  (c10_located_imports (fun p => p == "proj") (fun o => o + 1) [⟨"proj", 0, 4⟩] []
    ⟨⟨"proj", 0, 4⟩, 1, 5⟩).1 (by decide)
